import Mathlib

/-!
Verification of the MarketMate reasoning workflow engine
(`src/chat/reasoning.py`, `src/chat/functions_list.py`,
`src/chat/rate_limiter.py`) via a shallow embedding in Lean 4.

Modelling conventions:
* Python `None`-able strings become `Option String`; Python truthiness of a
  string field (`if state.response:`) is `strTruthy` (false for `None` and
  for the empty string).
* A message dict becomes the `Msg` structure; a key that may be absent
  (`tool_calls`, `name`, `tool_call_id`) is an `Option` or the empty list,
  matching the falsiness that `msg.get(...)` produces for an absent key.
* The LLM is an external oracle: each reasoning pass consumes one
  `LLMResult`, the summarizer consumes one `SummLLMResult`. `failure`
  models an exception reaching the node's `except` block.
* The JSON arguments of a tool call are pre-classified by `ToolArgs`:
  `malformed e` models `json.loads` raising (with exception text `e`),
  `parsed kwargs` models a successfully parsed JSON object (values kept
  as strings; only the mock tools consume them).
* The LangGraph `StateGraph` of `build_workflow` becomes the explicit
  step function `stepW` over `Config` together with the routing functions
  `routeAfterCot` / `routeAfterToolCall`, which transcribe the two
  conditional-edge lambdas.
-/

namespace MarketMate

/-- ToolArgs classifies the JSON `arguments` string of a tool call:
either `json.loads` fails (carrying the exception text), or it yields a
keyword-argument object, kept as string key/value pairs. -/
inductive ToolArgs where
  | malformed (errMsg : String)
  | parsed (kwargs : List (String × String))
deriving Repr, DecidableEq

/-- A tool call as appended by `cot_node`: `id`, function `name`, and the
(classified) JSON `arguments`. -/
structure ToolCall where
  id : String
  name : String
  args : ToolArgs
deriving Repr, DecidableEq

/-- A transcript entry (a Python message dict). Absent `tool_calls` is the
empty list, absent `name` / `tool_call_id` is `none`, matching falsiness
of `msg.get(...)` for absent keys. -/
structure Msg where
  role : String
  content : String
  tool_calls : List ToolCall := []
  name : Option String := none
  tool_call_id : Option String := none
deriving Repr, DecidableEq

/-- The engine state (`ChatState` pydantic model in `reasoning.py`).
The `llm_client` config dict is omitted: it only feeds logging and the
transport call, never the control flow. -/
structure ChatState where
  session_id : String := ""
  user_id : String := ""
  tier : String := ""
  user_query : String := ""
  messages : List Msg := []
  summary : Option String := none
  response : Option String := none
  is_financial : Option Bool := none
  iteration : Nat := 0
  max_iterations : Nat := 7
  user_message_count : Nat := 0
  finish_reason : Option String := none
deriving Repr, DecidableEq

/-- Python truthiness of an optional string: `None` and `""` are falsy. -/
def strTruthy : Option String → Bool
  | none => false
  | some s => s != ""

/-- The system prompt from `src/chat/prompt.py`. The full prose (ReAct
guidelines for the financial assistant) is irrelevant to every claim, so
the constant is abbreviated; only its identity and position matter. -/
def SYSTEM_PROMPT : String :=
  "You are MarketMate, a financial market data expert. [guidelines abbreviated]"

def systemPromptMsg : Msg := { role := "system", content := SYSTEM_PROMPT }

def userMsg (q : String) : Msg := { role := "user", content := q }

/-- Python `list.insert(1, x)`: after the first element if there is one
(`insert` clamps the index on shorter lists). -/
def pyInsert1 (x : Msg) : List Msg → List Msg
  | [] => [x]
  | a :: rest => a :: x :: rest

/-- input_node: prepend the system prompt, then recompute
`user_message_count` as the number of "human"-role entries. -/
def inputNode (s : ChatState) : ChatState :=
  let msgs := systemPromptMsg :: s.messages
  { s with messages := msgs,
           user_message_count := (msgs.filter (fun m => m.role == "human")).length }

/-- One reasoning-LLM outcome: a normalized completion (raw `content`,
tool-call list, `finish_reason`), or an exception with its text. -/
inductive LLMResult where
  | success (content : Option String) (tool_calls : List ToolCall) (finish_reason : String)
  | failure (errMsg : String)
deriving Repr

/-- The system entry spliced in for a truthy summary
(f-string `Conversation summary: {state.summary}`). -/
def summaryMsg (s : ChatState) : Msg :=
  { role := "system", content := "Conversation summary: " ++ s.summary.getD "" }

/-- cot_node lines 106-110 mutate `state.messages` in place only when
`iteration != 0` (then the local `messages` aliases `state.messages`, so
`messages.insert(1, ...)` hits the state); on iteration 0 the list was
copied by `messages + [...]` first. -/
def cotPrepMessages (s : ChatState) : List Msg :=
  if s.iteration != 0 && strTruthy s.summary then pyInsert1 (summaryMsg s) s.messages
  else s.messages

/-- The message list handed to the reasoning LLM call: the transcript,
plus the user query appended on iteration 0, plus the summary entry
inserted at index 1 when the summary is truthy. -/
def cotPrompt (s : ChatState) : List Msg :=
  let base := if s.iteration == 0 then s.messages ++ [userMsg s.user_query] else s.messages
  if strTruthy s.summary then pyInsert1 (summaryMsg s) base else base

def assistantToolMsg (content : String) (tcs : List ToolCall) : Msg :=
  { role := "assistant", content := content, tool_calls := tcs }

/-- Verification artifact: number of user-role entries in a transcript. -/
def countUserRole (l : List Msg) : Nat :=
  (l.filter (fun m => m.role == "user")).length

/-- cot_node: the reasoning (ReAct) step, consuming one LLM outcome.
The source decides `is_financial` with `if state.iteration == 0:` around
an assignment; here the same decision sits inside the field value, which
is the identical state. -/
def cotNode (s : ChatState) (llm : LLMResult) : ChatState :=
  if s.iteration ≥ s.max_iterations then
    { s with response := some "Unable to process query after maximum reasoning attempts." }
  else
    let s1 := { s with messages := cotPrepMessages s }
    match llm with
    | .failure err =>
        { s1 with response := some ("Error processing query: " ++ err),
                  is_financial := some false }
    | .success rawContent tcs fr =>
        let content := rawContent.getD ""
        if tcs.isEmpty = false then
          { s1 with finish_reason := some fr,
                    messages := s1.messages ++ [assistantToolMsg content tcs],
                    is_financial :=
                      if s.iteration == 0 then some (!(tcs.any (fun tc => tc.name == "invalid")))
                      else s.is_financial }
        else
          let s4 : ChatState :=
            { s1 with finish_reason := some fr,
                      messages := s1.messages ++ [({ role := "assistant", content := content } : Msg)],
                      is_financial := if s.iteration == 0 then some true else s.is_financial }
          if fr == "stop" then
            let resp := if content == "" then "Please provide more details to proceed with your query." else content
            { s4 with response := some resp }
          else if content != "" then
            { s4 with response := some content }
          else
            { s4 with iteration := s4.iteration + 1 }

/- Tool registry (`src/chat/functions_list.py`). -/

/-- The rejection payload of the `invalid` tool (`invalid()["error"]`). -/
def invalidMessage : String :=
  "Query is not related to financial markets. Please ask about stocks, earnings, or financial news."

/-- The keys of FUNCTION_MAP. -/
def FUNCTION_MAP_keys : List String :=
  ["get_financial_news", "get_quarterly_results", "invalid"]

/-- Result value of a successful mock tool invocation. -/
inductive ToolResult where
  | news (company : String)
  | quarterly (company quarter : String)
  | invalidRes
deriving Repr, DecidableEq

def kwargsLookup (kwargs : List (String × String)) (k : String) : Option String :=
  (kwargs.find? (fun p => p.1 == k)).map (fun p => p.2)

/-- Stand-in text for the Python `TypeError` raised when the parsed kwargs
do not match the tool signature; its exact wording is immaterial to the
claims, only that the inner `except` path is taken. -/
def typeErrText (fname : String) : String :=
  fname ++ "() got unexpected keyword arguments"

/-- `await FUNCTION_MAP[fname](**kwargs)`: dispatch on the three mock
tools, succeeding exactly when the kwargs match the signature, otherwise
raising (`.error` carries the exception text). -/
def invokeTool (fname : String) (kwargs : List (String × String)) : Except String ToolResult :=
  if fname == "get_financial_news" then
    match kwargs with
    | [(k, v)] => if k == "company_name" then .ok (.news v) else .error (typeErrText fname)
    | _ => .error (typeErrText fname)
  else if fname == "get_quarterly_results" then
    if kwargs.length == 2 then
      match kwargsLookup kwargs "company_name", kwargsLookup kwargs "quarter" with
      | some c, some q => .ok (.quarterly c q)
      | _, _ => .error (typeErrText fname)
    else .error (typeErrText fname)
  else if fname == "invalid" then
    match kwargs with
    | [] => .ok .invalidRes
    | _ => .error (typeErrText fname)
  else .error (typeErrText fname)

/-- json.dumps of a one-key error dict. -/
def jsonError (msg : String) : String :=
  "\x7b\"error\": \"" ++ msg ++ "\"\x7d"

/-- json.dumps of the successful tool results (mock payloads). -/
def dumpResult : ToolResult → String
  | .news c =>
      "\x7b\"company_name\": \"" ++ c ++
      "\", \"news\": [\x7b\"headline\": \"Mock news for " ++ c ++
      "\", \"description\": \"Sample news\", \"date\": \"2025-05-25\", \"source\": \"Mock\"\x7d]\x7d"
  | .quarterly c q =>
      "\x7b\"company_name\": \"" ++ c ++ "\", \"quarter\": \"" ++ q ++
      "\", \"valuation_ratios\": \x7b\"pe_ratio\": 15.5, \"pb_ratio\": 2.3\x7d, \"sales\": 90000000\x7d"
  | .invalidRes => jsonError invalidMessage

/-- `result["error"]` of the invalid tool result (the only place the code
reads an `error` field of a successful result). -/
def resultErrorField : ToolResult → String
  | .invalidRes => invalidMessage
  | _ => ""

/-- A function-role transcript entry for a tool result. -/
def funcMsg (fname id content : String) : Msg :=
  { role := "function", content := content, name := some fname, tool_call_id := some id }

/-- The `for tool_call in last_message["tool_calls"]` loop of
tool_call_node, inside its outer `try`:
a `json.loads` failure aborts the whole batch (outer `except`, sets
`response`, no iteration bump); an unknown name appends a per-call error
entry and continues; a successful `invalid` call sets `response` from its
error payload, appends the entry and returns; other successes append
their dumped result; an invocation error appends a per-call error entry.
Falling off the loop increments `iteration`. -/
def processToolCalls (s : ChatState) : List ToolCall → ChatState
  | [] => { s with iteration := s.iteration + 1 }
  | tc :: rest =>
    match tc.args with
    | .malformed err =>
        { s with response := some ("Error processing tool calls: " ++ err) }
    | .parsed kwargs =>
        if (FUNCTION_MAP_keys.contains tc.name) = false then
          processToolCalls
            { s with messages :=
                s.messages ++ [funcMsg tc.name tc.id (jsonError ("Invalid function " ++ tc.name))] }
            rest
        else
          match invokeTool tc.name kwargs with
          | .ok r =>
              if tc.name == "invalid" then
                { s with response := some (resultErrorField r),
                         messages := s.messages ++ [funcMsg tc.name tc.id (dumpResult r)] }
              else
                processToolCalls
                  { s with messages := s.messages ++ [funcMsg tc.name tc.id (dumpResult r)] }
                  rest
          | .error e =>
              processToolCalls
                { s with messages :=
                    s.messages ++ [funcMsg tc.name tc.id (jsonError ("Error executing " ++ tc.name ++ ": " ++ e))] }
                rest

/-- tool_call_node. `none` models the uncaught `IndexError` of
`state.messages[-1]` on an empty transcript (unreachable after
input_node, which is proved as part of the driver invariant). -/
def toolCallNode (s : ChatState) : Option ChatState :=
  if s.iteration ≥ s.max_iterations then
    some { s with response := some "Unable to process query after maximum function calls." }
  else
    match s.messages.getLast? with
    | none => none
    | some last =>
      if last.tool_calls.isEmpty then
        some { s with response := some "No tool call found in previous step." }
      else
        some (processToolCalls s last.tool_calls)

/-- One summarization-LLM outcome: the raw completion content, or an
exception with its text. -/
inductive SummLLMResult where
  | success (content : Option String)
  | failure (errMsg : String)
deriving Repr

/-- summarizer_node. On success, a `None` content first lands in
`state.summary` but `len(state.summary)` in the log call then raises, so
the `except` path rewrites it to `""`; hence `some (c.getD "")`. On
failure, `state.summary = state.summary or ""`. Empty transcript skips
the call entirely. The dead local `K = 2` is `SUMMARIZER_K` below. -/
def summarizerNode (s : ChatState) (llm : SummLLMResult) : ChatState :=
  if s.messages.length > 0 then
    match llm with
    | .success c => { s with summary := some (c.getD "") }
    | .failure _ => { s with summary := some (s.summary.getD "") }
  else s

/-- The local constant `K = 2` in summarizer_node; it is never read. -/
def SUMMARIZER_K : Nat := 2

/-- output_node: a no-op pass-through. -/
def outputNode (s : ChatState) : ChatState := s

/- Routing (the two conditional-edge lambdas of build_workflow). -/

/-- `state.messages[-1].get("tool_calls")` truthiness. The empty-list case
models the (unreachable after input_node) `IndexError` state as falsy. -/
def lastToolCallsNonempty (s : ChatState) : Bool :=
  match s.messages.getLast? with
  | some m => !m.tool_calls.isEmpty
  | none => false

/-- Whether some function-role entry carries the sentinel name
`"invalid"`. -/
def hasInvalidFnEntry (s : ChatState) : Bool :=
  s.messages.any (fun m => m.role == "function" && m.name == some "invalid")

/-- The conditional edge after cot. -/
def routeAfterCot (s : ChatState) : String :=
  if lastToolCallsNonempty s then "tool_call"
  else if s.finish_reason == some "stop" || strTruthy s.response then "summarizer"
  else if s.iteration < s.max_iterations then "cot"
  else "output"

/-- The conditional edge after tool_call. -/
def routeAfterToolCall (s : ChatState) : String :=
  if strTruthy s.response || hasInvalidFnEntry s then "output"
  else "cot"

/- Rate limiter (`src/chat/rate_limiter.py`). Time is seconds as `Nat`;
the per-user store `request_counts[user_id]` is passed in and returned
explicitly as a `(timestamp, token_count)` list. -/

inductive RateLimitError where
  | rateLimitExceeded
  | tokenLimitExceeded
deriving Repr, DecidableEq

/-- `tier_limits.get(tier, tier_limits["free-tier"])` as `(rpm, tpm)`. -/
def tier_limits (tier : String) : Nat × Nat :=
  if tier == "free-tier" then (5, 100)
  else if tier == "paid-tier" then (50, 1000)
  else (5, 100)

/-- Drop entries older than 60 seconds (`now - ts < timedelta(seconds=60)`;
`Nat` subtraction agrees with the signed comparison since future-dated
entries are kept by both). -/
def pruneWindow (now : Nat) (entries : List (Nat × Nat)) : List (Nat × Nat) :=
  entries.filter (fun e => now - e.1 < 60)

/-- check_rate_limit: returns the updated per-user entry list together
with the error raised, if any (the pruned list persists even on error,
as in the source, where cleanup mutates `request_counts` before the
checks; the recorded token count is the placeholder 10). -/
def check_rate_limit (now : Nat) (entries : List (Nat × Nat)) (tier : String) :
    List (Nat × Nat) × Option RateLimitError :=
  let limits := tier_limits tier
  let recent := pruneWindow now entries
  if recent.length ≥ limits.1 then (recent, some .rateLimitExceeded)
  else if (recent.map (fun e => e.2)).sum ≥ limits.2 then (recent, some .tokenLimitExceeded)
  else (recent ++ [(now, 10)], none)

/- The workflow driver: the compiled StateGraph as an explicit step
function. Nodes are the five graph nodes of build_workflow. -/

inductive Node where
  | input | cot | toolCall | summarizer | output
deriving Repr, DecidableEq

/-- The external environment for a turn: one reasoning-LLM outcome per
reasoning call (indexed by call count) and the summarizer-LLM outcome. -/
structure Env where
  llm : Nat → LLMResult
  summ : SummLLMResult

/-- A driver configuration: current node, state, number of reasoning LLM
calls consumed, and counters for completed cot / tool_call passes. -/
structure Config where
  node : Node
  state : ChatState
  llmCalls : Nat := 0
  cotPasses : Nat := 0
  toolPasses : Nat := 0
deriving Repr, DecidableEq

/-- Map a routing result (LangGraph node name) to a node. -/
def nodeOfRoute (r : String) : Node :=
  if r == "tool_call" then .toolCall
  else if r == "summarizer" then .summarizer
  else if r == "cot" then .cot
  else .output

inductive StepResult where
  | next (c : Config)
  | finished (c : Config)
  | crashed
deriving Repr, DecidableEq

/-- One transition of the compiled workflow: run the current node, then
follow the (conditional) edge out of it. `crashed` models the uncaught
IndexError of tool_call_node on an empty transcript. -/
def stepW (env : Env) (c : Config) : StepResult :=
  match c.node with
  | .input => .next { c with node := .cot, state := inputNode c.state }
  | .cot =>
      let s := cotNode c.state (env.llm c.llmCalls)
      .next { node := nodeOfRoute (routeAfterCot s), state := s,
              llmCalls := c.llmCalls + 1, cotPasses := c.cotPasses + 1,
              toolPasses := c.toolPasses }
  | .toolCall =>
      match toolCallNode c.state with
      | none => .crashed
      | some s =>
          .next { node := nodeOfRoute (routeAfterToolCall s), state := s,
                  llmCalls := c.llmCalls, cotPasses := c.cotPasses,
                  toolPasses := c.toolPasses + 1 }
  | .summarizer =>
      .next { c with node := .output, state := summarizerNode c.state env.summ, llmCalls := c.llmCalls + 1 }
  | .output => .finished { c with state := outputNode c.state }

/-- Fuelled execution of the workflow from a configuration; `none` means
fuel ran out or the driver crashed. -/
def runW (env : Env) : Nat → Config → Option Config
  | 0, _ => none
  | fuel + 1, c =>
      match stepW env c with
      | .finished c2 => some c2
      | .crashed => none
      | .next c2 => runW env fuel c2

/-- The initial configuration of a turn (entry point `input`). -/
def initConfig (s : ChatState) : Config := { node := .input, state := s }

/-- Verification artifact: node weight for the termination measure. -/
def nodeWeight : Node → Nat
  | .input => 4
  | .cot => 3
  | .toolCall => 2
  | .summarizer => 1
  | .output => 0

/-- Verification artifact: the termination measure of a configuration,
dominated by the remaining iteration budget. -/
def measureW (c : Config) : Nat :=
  4 * (c.state.max_iterations - c.state.iteration) + nodeWeight c.node

/-- Verification artifact: the driver invariant. The transcript is
nonempty whenever tool_call is entered (so the IndexError path is
unreachable), completed cot passes are bounded by the iteration counter,
and the iteration counter never exceeds the cap. -/
def InvW (c : Config) : Prop :=
  (c.node = .toolCall → c.state.messages ≠ []) ∧
  ((c.node = .cot ∨ c.node = .input) → c.cotPasses ≤ c.state.iteration) ∧
  c.cotPasses ≤ c.state.iteration + 1 ∧
  c.state.iteration ≤ c.state.max_iterations

/- Concrete inputs used by witnesses and counterexamples. -/

/-- A well-formed call to the invalid tool (model sends arguments between empty braces). -/
def exInvCallOk : ToolCall := { id := "call_1", name := "invalid", args := .parsed [] }

/-- A call to the invalid tool whose arguments do not parse as JSON. -/
def exInvCallBad : ToolCall :=
  { id := "call_1", name := "invalid",
    args := .malformed "Expecting value: line 1 column 1 (char 0)" }

/-- A call to a name absent from FUNCTION_MAP with unparseable arguments. -/
def exUnknownBad : ToolCall :=
  { id := "call_1", name := "get_stock_price",
    args := .malformed "Expecting value: line 1 column 1 (char 0)" }

/-- A well-formed news lookup call. -/
def exNewsCall : ToolCall :=
  { id := "call_2", name := "get_financial_news", args := .parsed [("company_name", "Apple")] }

/-- A fresh turn state, as `run_chat_graph` builds it. -/
def exTurnState : ChatState := { user_query := "What is the weather today?", summary := some "" }

/-- The state at the end of the invalid-query turn on `exTurnState`. -/
def exInvalidFinalState : ChatState :=
  { user_query := "What is the weather today?", summary := some "",
    messages := [systemPromptMsg, assistantToolMsg "" [exInvCallOk],
                 funcMsg "invalid" "call_1" (jsonError invalidMessage)],
    response := some invalidMessage, is_financial := some false,
    finish_reason := some "tool_calls" }

/-- The final driver configuration of that invalid-query turn. -/
def exInvalidFinalConfig : Config :=
  { node := .output, state := exInvalidFinalState, llmCalls := 1, cotPasses := 1, toolPasses := 1 }

/-- A fresh turn state with an iteration budget of one. -/
def exTurnStateMaxOne : ChatState :=
  { user_query := "What is the weather today?", summary := some "", max_iterations := 1 }

/-- Environment whose first reasoning call selects the invalid tool with
well-formed (empty) arguments. -/
def exEnvInvalidOk : Env :=
  { llm := fun _ => .success none [exInvCallOk] "tool_calls", summ := .failure "connection reset" }

/-- Environment whose first reasoning call selects the invalid tool with
unparseable arguments. -/
def exEnvInvalidBad : Env :=
  { llm := fun _ => .success none [exInvCallBad] "tool_calls", summ := .failure "connection reset" }

/-- Environment whose reasoning calls always return an empty incomplete
completion (no tool calls, no stop). -/
def exEnvIncomplete : Env :=
  { llm := fun _ => .success (some "") [] "length", summ := .failure "connection reset" }

/-- A post-reasoning state that hit a stop with one prior user message. -/
def exStopState : ChatState :=
  { user_query := "hi", messages := [systemPromptMsg, { role := "assistant", content := "Hello." }],
    finish_reason := some "stop", response := some "Hello.", user_message_count := 1 }

/-- A state about to run a batch holding an unknown-tool call with
unparseable arguments followed by a well-formed sibling call. -/
def exBatchState : ChatState :=
  { user_query := "news?",
    messages := [systemPromptMsg, assistantToolMsg "" [exUnknownBad, exNewsCall]] }

/-- A post-input state carrying a stored summary from a prior turn. -/
def exSummaryState : ChatState :=
  { user_query := "And for Tesla?", messages := [systemPromptMsg],
    summary := some "User asked about Apple earnings." }

/-- A state whose summary is absent (`None`), before summarization. -/
def exNoSummaryState : ChatState :=
  { user_query := "hi", messages := [systemPromptMsg, { role := "assistant", content := "Hello." }] }

/-- Five requests recorded 50 seconds before `now = 100`. -/
def exEntriesAtLimit : List (Nat × Nat) := [(50, 10), (51, 10), (52, 10), (53, 10), (54, 10)]

/- Helper lemmas. -/

theorem append_ne_empty (a b : String) (h : a ≠ "") : a ++ b ≠ "" := by
  intro hab
  apply h
  apply String.ext
  have hd := congrArg String.data hab
  rw [String.data_append] at hd
  have h2 := (List.append_eq_nil).mp hd
  exact h2.1

theorem getLast?_append_singleton (l : List Msg) (a : Msg) : (l ++ [a]).getLast? = some a := by
  exact List.getLast?_concat l

/-- A state whose transcript ends in an assistant tool-call entry with a
nonempty call list satisfies `lastToolCallsNonempty`. -/
theorem lastToolCallsNonempty_append (s : ChatState) (l : List Msg) (content : String)
    (tcs : List ToolCall) (hne : tcs ≠ [])
    (h : s.messages = l ++ [assistantToolMsg content tcs]) :
    lastToolCallsNonempty s = true := by
  unfold lastToolCallsNonempty
  rw [h, getLast?_append_singleton]
  cases tcs with
  | nil => exact absurd rfl hne
  | cons a b => rfl

theorem strTruthy_some_iff (m : String) : strTruthy (some m) = true ↔ m ≠ "" := by
  simp [strTruthy, bne_iff_ne]

/-- cot_node leaves `max_iterations` untouched. -/
theorem cotNode_max_iterations (s : ChatState) (llm : LLMResult) :
    (cotNode s llm).max_iterations = s.max_iterations := by
  unfold cotNode
  split
  · rfl
  · cases llm with
    | failure e => rfl
    | success c tcs fr =>
      dsimp only
      split
      · rfl
      · split
        · rfl
        · split <;> rfl

/-- Every cot pass lands in one of three shapes: it set a truthy
`response` (iteration untouched), it appended a tool-call message
(iteration untouched), or it incremented `iteration` (possible only when
iterations remained) leaving `response` untouched. -/
theorem cotNode_cases (s : ChatState) (llm : LLMResult) :
    ((cotNode s llm).iteration = s.iteration ∧ strTruthy (cotNode s llm).response = true) ∨
    ((cotNode s llm).iteration = s.iteration ∧ lastToolCallsNonempty (cotNode s llm) = true) ∨
    ((cotNode s llm).iteration = s.iteration + 1 ∧ s.iteration < s.max_iterations ∧
      (cotNode s llm).response = s.response) := by
  by_cases hmax : s.iteration ≥ s.max_iterations
  · left
    unfold cotNode
    rw [if_pos hmax]
    exact ⟨rfl, rfl⟩
  · unfold cotNode
    rw [if_neg hmax]
    cases llm with
    | failure e =>
      left
      refine ⟨rfl, ?_⟩
      rw [strTruthy_some_iff]
      exact append_ne_empty _ _ (by decide)
    | success c tcs fr =>
      dsimp only
      cases tcs with
      | cons tc rest =>
        rw [if_pos (show ((tc :: rest).isEmpty = false) from rfl)]
        right; left
        exact ⟨rfl, lastToolCallsNonempty_append _ (cotPrepMessages s) (c.getD "")
          (tc :: rest) (List.cons_ne_nil tc rest) rfl⟩
      | nil =>
        rw [if_neg (show ¬ (([] : List ToolCall).isEmpty = false) by decide)]
        by_cases hfr : (fr == "stop") = true
        · left
          rw [if_pos hfr]
          refine ⟨rfl, ?_⟩
          by_cases hcc : ((c.getD "") == "") = true
          · rw [if_pos hcc]
            rfl
          · rw [if_neg hcc]
            rw [strTruthy_some_iff]
            simpa using hcc
        · rw [if_neg hfr]
          by_cases hcc : ((c.getD "") != "") = true
          · left
            rw [if_pos hcc]
            refine ⟨rfl, ?_⟩
            rw [strTruthy_some_iff]
            simpa using hcc
          · right; right
            rw [if_neg hcc]
            exact ⟨rfl, Nat.lt_of_not_le hmax, rfl⟩

/-- The batch loop leaves `max_iterations` untouched. -/
theorem processToolCalls_max_iterations (l : List ToolCall) (s : ChatState) :
    (processToolCalls s l).max_iterations = s.max_iterations := by
  induction l generalizing s with
  | nil => rfl
  | cons tc rest ih =>
    unfold processToolCalls
    split
    · rfl
    · split
      · exact ih _
      · split
        · split
          · rfl
          · exact ih _
        · exact ih _

/-- The batch loop leaves `is_financial` untouched. -/
theorem processToolCalls_is_financial (l : List ToolCall) (s : ChatState) :
    (processToolCalls s l).is_financial = s.is_financial := by
  induction l generalizing s with
  | nil => rfl
  | cons tc rest ih =>
    unfold processToolCalls
    split
    · rfl
    · split
      · exact ih _
      · split
        · split
          · rfl
          · exact ih _
        · exact ih _

/-- A batch either runs to completion (iteration incremented, `response`
untouched) or stops early having set a truthy `response`. -/
theorem processToolCalls_cases (l : List ToolCall) (s : ChatState) :
    ((processToolCalls s l).iteration = s.iteration + 1 ∧
      (processToolCalls s l).response = s.response) ∨
    ((processToolCalls s l).iteration = s.iteration ∧
      strTruthy (processToolCalls s l).response = true) := by
  induction l generalizing s with
  | nil => left; exact ⟨rfl, rfl⟩
  | cons tc rest ih =>
    unfold processToolCalls
    cases harg : tc.args with
    | malformed e =>
      right
      refine ⟨rfl, ?_⟩
      rw [strTruthy_some_iff]
      exact append_ne_empty _ _ (by decide)
    | parsed kwargs =>
      dsimp only
      by_cases hc : (FUNCTION_MAP_keys.contains tc.name) = false
      · rw [if_pos hc]
        exact ih _
      · rw [if_neg hc]
        cases hr : invokeTool tc.name kwargs with
        | error e => exact ih _
        | ok r =>
          dsimp only
          by_cases hname : (tc.name == "invalid") = true
          · rw [if_pos hname]
            right
            refine ⟨rfl, ?_⟩
            rw [beq_iff_eq] at hname
            rw [hname] at hr
            unfold invokeTool at hr
            rw [if_neg (by decide), if_neg (by decide), if_pos (by decide)] at hr
            cases kwargs with
            | nil =>
              cases hr
              rw [strTruthy_some_iff]
              decide
            | cons p ps => cases hr
          · rw [if_neg hname]
            exact ih _

/-- tool_call_node crashes (IndexError) only on an empty transcript. -/
theorem toolCallNode_none_imp (s : ChatState) (h : toolCallNode s = none) :
    s.messages = [] := by
  unfold toolCallNode at h
  split at h
  · cases h
  · cases hm : s.messages.getLast? with
    | some last =>
      rw [hm] at h
      dsimp only at h
      by_cases he : last.tool_calls.isEmpty = true
      · rw [if_pos he] at h; cases h
      · rw [if_neg he] at h; cases h
    | none => exact List.getLast?_eq_none_iff.mp hm

/-- tool_call_node leaves `max_iterations` untouched. -/
theorem toolCallNode_max_iterations (s s' : ChatState) (h : toolCallNode s = some s') :
    s'.max_iterations = s.max_iterations := by
  unfold toolCallNode at h
  split at h
  · cases h; rfl
  · cases hm : s.messages.getLast? with
    | none => rw [hm] at h; cases h
    | some last =>
      rw [hm] at h
      dsimp only at h
      by_cases he : last.tool_calls.isEmpty = true
      · rw [if_pos he] at h; cases h; rfl
      · rw [if_neg he] at h
        cases h
        exact processToolCalls_max_iterations _ _

/-- tool_call_node leaves `is_financial` untouched. -/
theorem toolCallNode_is_financial (s s' : ChatState) (h : toolCallNode s = some s') :
    s'.is_financial = s.is_financial := by
  unfold toolCallNode at h
  split at h
  · cases h; rfl
  · cases hm : s.messages.getLast? with
    | none => rw [hm] at h; cases h
    | some last =>
      rw [hm] at h
      dsimp only at h
      by_cases he : last.tool_calls.isEmpty = true
      · rw [if_pos he] at h; cases h; rfl
      · rw [if_neg he] at h
        cases h
        exact processToolCalls_is_financial _ _

/-- A tool_call pass either completes the batch (iteration incremented,
`response` untouched, only possible when iterations remained) or ends
with a truthy `response` and iteration untouched. -/
theorem toolCallNode_cases (s s' : ChatState) (h : toolCallNode s = some s') :
    (s'.iteration = s.iteration + 1 ∧ s'.response = s.response ∧
      s.iteration < s.max_iterations) ∨
    (s'.iteration = s.iteration ∧ strTruthy s'.response = true) := by
  unfold toolCallNode at h
  split at h
  · cases h
    right
    exact ⟨rfl, rfl⟩
  · rename_i hmax
    cases hm : s.messages.getLast? with
    | none => rw [hm] at h; cases h
    | some last =>
      rw [hm] at h
      dsimp only at h
      by_cases he : last.tool_calls.isEmpty = true
      · rw [if_pos he] at h
        cases h
        right
        exact ⟨rfl, rfl⟩
      · rw [if_neg he] at h
        cases h
        rcases processToolCalls_cases last.tool_calls s with ⟨h1, h2⟩ | ⟨h1, h2⟩
        · exact Or.inl ⟨h1, h2, Nat.lt_of_not_le hmax⟩
        · exact Or.inr ⟨h1, h2⟩

/-- input_node only touches `messages` and `user_message_count`. -/
theorem inputNode_fields (s : ChatState) :
    (inputNode s).iteration = s.iteration ∧
    (inputNode s).max_iterations = s.max_iterations ∧
    (inputNode s).messages = systemPromptMsg :: s.messages := by
  exact ⟨rfl, rfl, rfl⟩

/-- summarizer_node only touches `summary`. -/
theorem summarizerNode_fields (s : ChatState) (r : SummLLMResult) :
    (summarizerNode s r).iteration = s.iteration ∧
    (summarizerNode s r).max_iterations = s.max_iterations ∧
    (summarizerNode s r).messages = s.messages ∧
    (summarizerNode s r).response = s.response ∧
    (summarizerNode s r).is_financial = s.is_financial := by
  unfold summarizerNode
  split
  · cases r <;> exact ⟨rfl, rfl, rfl, rfl, rfl⟩
  · exact ⟨rfl, rfl, rfl, rfl, rfl⟩

/-- The edge out of cot goes to one of the four graph targets. -/
theorem routeAfterCot_mem (s : ChatState) :
    routeAfterCot s = "tool_call" ∨ routeAfterCot s = "summarizer" ∨
    routeAfterCot s = "cot" ∨ routeAfterCot s = "output" := by
  unfold routeAfterCot
  split_ifs <;> simp

/-- The edge out of tool_call goes to output or back to cot. -/
theorem routeAfterToolCall_mem (s : ChatState) :
    routeAfterToolCall s = "output" ∨ routeAfterToolCall s = "cot" := by
  unfold routeAfterToolCall
  split_ifs <;> simp

/-- Routing to tool_call happens exactly on a trailing tool-call entry. -/
theorem routeAfterCot_toolcall_iff (s : ChatState) :
    routeAfterCot s = "tool_call" ↔ lastToolCallsNonempty s = true := by
  unfold routeAfterCot
  split_ifs with h1 h2 h3 <;> simp_all

theorem bool_eq_false_of_not_true {b : Bool} (h : ¬ b = true) : b = false := by
  cases b
  · rfl
  · exact absurd rfl h

theorem bor_eq_true_elim {a b : Bool} (h : (a || b) = true) : a = true ∨ b = true := by
  cases a
  · cases b
    · cases h
    · exact Or.inr rfl
  · exact Or.inl rfl

theorem bor_eq_true_intro {a b : Bool} (h : a = true ∨ b = true) : (a || b) = true := by
  rcases h with h | h
  · rw [h]
    rfl
  · rw [h]
    exact Bool.or_true a

/-- Conditions forced by the cot-loop edge. -/
theorem routeAfterCot_eq_cot_imp (s : ChatState) (h : routeAfterCot s = "cot") :
    lastToolCallsNonempty s = false ∧
    (s.finish_reason == some "stop" || strTruthy s.response) = false ∧
    s.iteration < s.max_iterations := by
  unfold routeAfterCot at h
  split_ifs at h with h1 h2 h3
  · exact absurd h (by decide)
  · exact absurd h (by decide)
  · exact ⟨bool_eq_false_of_not_true h1, bool_eq_false_of_not_true h2, h3⟩
  · exact absurd h (by decide)

/-- Conditions forced by the direct cot-to-output (exhaustion) edge. -/
theorem routeAfterCot_eq_output_imp (s : ChatState) (h : routeAfterCot s = "output") :
    lastToolCallsNonempty s = false ∧
    (s.finish_reason == some "stop" || strTruthy s.response) = false ∧
    ¬ s.iteration < s.max_iterations := by
  unfold routeAfterCot at h
  split_ifs at h with h1 h2 h3
  · exact absurd h (by decide)
  · exact absurd h (by decide)
  · exact absurd h (by decide)
  · exact ⟨bool_eq_false_of_not_true h1, bool_eq_false_of_not_true h2, h3⟩

/-- A stop condition or truthy response (without a trailing tool call)
routes to the summarizer. -/
theorem routeAfterCot_summarizer_of (s : ChatState)
    (h1 : lastToolCallsNonempty s = false)
    (h2 : (s.finish_reason == some "stop" || strTruthy s.response) = true) :
    routeAfterCot s = "summarizer" := by
  unfold routeAfterCot
  rw [if_neg (by simp [h1]), if_pos h2]

/-- Conditions forced by the tool_call-to-cot loop edge. -/
theorem routeAfterToolCall_eq_cot_imp (s : ChatState)
    (h : routeAfterToolCall s = "cot") :
    (strTruthy s.response || hasInvalidFnEntry s) = false := by
  unfold routeAfterToolCall at h
  split_ifs at h with h1
  · exact absurd h (by decide)
  · exact bool_eq_false_of_not_true h1

/-- A truthy response after tool_call always routes to output. -/
theorem routeAfterToolCall_output_of (s : ChatState)
    (h : (strTruthy s.response || hasInvalidFnEntry s) = true) :
    routeAfterToolCall s = "output" := by
  unfold routeAfterToolCall
  rw [if_pos h]

/-- A state passing the tool-call test has a nonempty transcript. -/
theorem lastToolCallsNonempty_ne_nil (s : ChatState)
    (h : lastToolCallsNonempty s = true) : s.messages ≠ [] := by
  intro hnil
  unfold lastToolCallsNonempty at h
  rw [List.getLast?_eq_none_iff.mpr hnil] at h
  cases h

theorem nodeOfRoute_toolcall : nodeOfRoute "tool_call" = Node.toolCall := by decide

theorem nodeOfRoute_summarizer : nodeOfRoute "summarizer" = Node.summarizer := by decide

theorem nodeOfRoute_cot : nodeOfRoute "cot" = Node.cot := by decide

theorem nodeOfRoute_output : nodeOfRoute "output" = Node.output := by decide

/-- One driver step preserves the invariant, strictly decreases the
measure, and never changes the iteration cap. -/
theorem stepW_next_spec (env : Env) (c c' : Config) (hInv : InvW c)
    (h : stepW env c = .next c') :
    InvW c' ∧ measureW c' < measureW c ∧
    c'.state.max_iterations = c.state.max_iterations := by
  obtain ⟨hI1, hI2, hI3, hI4⟩ := hInv
  unfold stepW at h
  cases hn : c.node with
  | input =>
    rw [hn] at h
    dsimp only at h
    cases h
    refine ⟨⟨?_, ?_, ?_, ?_⟩, ?_, ?_⟩
    · intro hx; exact Node.noConfusion hx
    · intro _; exact hI2 (Or.inr hn)
    · exact hI3
    · exact hI4
    · dsimp only [measureW]
      rw [hn]
      dsimp only [nodeWeight]
      have h1 := (inputNode_fields c.state).1
      have h2 := (inputNode_fields c.state).2.1
      omega
    · rfl
  | cot =>
    rw [hn] at h
    dsimp only at h
    cases h
    have hmaxp := cotNode_max_iterations c.state (env.llm c.llmCalls)
    have hcases := cotNode_cases c.state (env.llm c.llmCalls)
    have hcp : c.cotPasses ≤ c.state.iteration := hI2 (Or.inl hn)
    have hiter :
        (cotNode c.state (env.llm c.llmCalls)).iteration = c.state.iteration ∨
        ((cotNode c.state (env.llm c.llmCalls)).iteration = c.state.iteration + 1 ∧
          c.state.iteration < c.state.max_iterations) := by
      rcases hcases with ⟨h1, _⟩ | ⟨h1, _⟩ | ⟨h1, h2, _⟩
      · exact Or.inl h1
      · exact Or.inl h1
      · exact Or.inr ⟨h1, h2⟩
    rcases routeAfterCot_mem (cotNode c.state (env.llm c.llmCalls)) with hr | hr | hr | hr
    · rw [hr, nodeOfRoute_toolcall]
      refine ⟨⟨?_, ?_, ?_, ?_⟩, ?_, ?_⟩
      · intro _
        exact lastToolCallsNonempty_ne_nil _ ((routeAfterCot_toolcall_iff _).mp hr)
      · intro hx; rcases hx with hx | hx <;> exact Node.noConfusion hx
      · dsimp only
        rcases hiter with h1 | ⟨h1, _⟩ <;> omega
      · dsimp only
        rcases hiter with h1 | ⟨h1, h2⟩ <;> omega
      · dsimp only [measureW]
        rw [hn]
        dsimp only [nodeWeight]
        rcases hiter with h1 | ⟨h1, h2⟩ <;> omega
      · exact hmaxp
    · rw [hr, nodeOfRoute_summarizer]
      refine ⟨⟨?_, ?_, ?_, ?_⟩, ?_, ?_⟩
      · intro hx; exact Node.noConfusion hx
      · intro hx; rcases hx with hx | hx <;> exact Node.noConfusion hx
      · dsimp only
        rcases hiter with h1 | ⟨h1, _⟩ <;> omega
      · dsimp only
        rcases hiter with h1 | ⟨h1, h2⟩ <;> omega
      · dsimp only [measureW]
        rw [hn]
        dsimp only [nodeWeight]
        rcases hiter with h1 | ⟨h1, h2⟩ <;> omega
      · exact hmaxp
    · rw [hr, nodeOfRoute_cot]
      obtain ⟨hlast, hor, hlt⟩ := routeAfterCot_eq_cot_imp _ hr
      have hresp :
          strTruthy (cotNode c.state (env.llm c.llmCalls)).response = false :=
        (Bool.or_eq_false_iff.mp hor).2
      rcases hcases with ⟨_, h2⟩ | ⟨_, h2⟩ | ⟨h1, h2, _⟩
      · rw [h2] at hresp; cases hresp
      · rw [h2] at hlast; cases hlast
      · refine ⟨⟨?_, ?_, ?_, ?_⟩, ?_, ?_⟩
        · intro hx; exact Node.noConfusion hx
        · intro _
          dsimp only
          omega
        · dsimp only
          omega
        · dsimp only
          omega
        · dsimp only [measureW]
          rw [hn]
          dsimp only [nodeWeight]
          omega
        · exact hmaxp
    · rw [hr, nodeOfRoute_output]
      refine ⟨⟨?_, ?_, ?_, ?_⟩, ?_, ?_⟩
      · intro hx; exact Node.noConfusion hx
      · intro hx; rcases hx with hx | hx <;> exact Node.noConfusion hx
      · dsimp only
        rcases hiter with h1 | ⟨h1, _⟩ <;> omega
      · dsimp only
        rcases hiter with h1 | ⟨h1, h2⟩ <;> omega
      · dsimp only [measureW]
        rw [hn]
        dsimp only [nodeWeight]
        rcases hiter with h1 | ⟨h1, h2⟩ <;> omega
      · exact hmaxp
  | toolCall =>
    rw [hn] at h
    dsimp only at h
    cases ht : toolCallNode c.state with
    | none => rw [ht] at h; cases h
    | some s2 =>
      rw [ht] at h
      dsimp only at h
      cases h
      have hmaxp := toolCallNode_max_iterations _ _ ht
      have hcases2 := toolCallNode_cases _ _ ht
      rcases routeAfterToolCall_mem s2 with hr | hr
      · rw [hr, nodeOfRoute_output]
        refine ⟨⟨?_, ?_, ?_, ?_⟩, ?_, ?_⟩
        · intro hx; exact Node.noConfusion hx
        · intro hx; rcases hx with hx | hx <;> exact Node.noConfusion hx
        · dsimp only
          rcases hcases2 with ⟨h1, _, _⟩ | ⟨h1, _⟩ <;> omega
        · dsimp only
          rcases hcases2 with ⟨h1, _, h3⟩ | ⟨h1, _⟩ <;> omega
        · dsimp only [measureW]
          rw [hn]
          dsimp only [nodeWeight]
          rcases hcases2 with ⟨h1, _, h3⟩ | ⟨h1, _⟩ <;> omega
        · exact hmaxp
      · rw [hr, nodeOfRoute_cot]
        have hresp : strTruthy s2.response = false :=
          (Bool.or_eq_false_iff.mp (routeAfterToolCall_eq_cot_imp _ hr)).1
        rcases hcases2 with ⟨h1, _, h3⟩ | ⟨_, h2⟩
        · refine ⟨⟨?_, ?_, ?_, ?_⟩, ?_, ?_⟩
          · intro hx; exact Node.noConfusion hx
          · intro _
            dsimp only
            omega
          · dsimp only
            omega
          · dsimp only
            omega
          · dsimp only [measureW]
            rw [hn]
            dsimp only [nodeWeight]
            omega
          · exact hmaxp
        · rw [h2] at hresp; cases hresp
  | summarizer =>
    rw [hn] at h
    dsimp only at h
    cases h
    have hsf := summarizerNode_fields c.state env.summ
    refine ⟨⟨?_, ?_, ?_, ?_⟩, ?_, ?_⟩
    · intro hx; exact Node.noConfusion hx
    · intro hx; rcases hx with hx | hx <;> exact Node.noConfusion hx
    · dsimp only
      rw [hsf.1]
      exact hI3
    · dsimp only
      rw [hsf.1, hsf.2.1]
      exact hI4
    · dsimp only [measureW]
      rw [hn]
      dsimp only [nodeWeight]
      rw [hsf.1, hsf.2.1]
      omega
    · exact hsf.2.1
  | output =>
    rw [hn] at h
    cases h

theorem runW_succ (env : Env) (fuel : Nat) (c : Config) :
    runW env (fuel + 1) c =
      (match stepW env c with
        | .finished c2 => some c2
        | .crashed => none
        | .next c2 => runW env fuel c2) := rfl

/-- The driver finishes only at the output node, returning the
configuration unchanged. -/
theorem stepW_finished_spec (env : Env) (c c2 : Config)
    (h : stepW env c = .finished c2) : c2 = c ∧ c.node = .output := by
  obtain ⟨nd, st, lc, cp, tp⟩ := c
  cases nd with
  | input => exact StepResult.noConfusion h
  | cot => exact StepResult.noConfusion h
  | toolCall =>
    dsimp only [stepW] at h
    cases ht : toolCallNode st with
    | none => rw [ht] at h; exact StepResult.noConfusion h
    | some s2 => rw [ht] at h; exact StepResult.noConfusion h
  | summarizer => exact StepResult.noConfusion h
  | output =>
    dsimp only [stepW] at h
    cases h
    exact ⟨rfl, rfl⟩

/-- The driver crashes only from tool_call on an empty transcript. -/
theorem stepW_crashed_spec (env : Env) (c : Config)
    (h : stepW env c = .crashed) :
    c.node = .toolCall ∧ c.state.messages = [] := by
  obtain ⟨nd, st, lc, cp, tp⟩ := c
  cases nd with
  | input => exact StepResult.noConfusion h
  | cot => exact StepResult.noConfusion h
  | toolCall =>
    dsimp only [stepW] at h
    cases ht : toolCallNode st with
    | none => exact ⟨rfl, toolCallNode_none_imp _ ht⟩
    | some s2 => rw [ht] at h; exact StepResult.noConfusion h
  | summarizer => exact StepResult.noConfusion h
  | output => exact StepResult.noConfusion h

/-- With fuel above the measure, an invariant configuration runs to
completion: the run returns an output-node configuration with the same
iteration cap and the invariant intact. -/
theorem runW_some_spec (env : Env) :
    ∀ (fuel : Nat) (c : Config), InvW c → measureW c < fuel →
      ∃ c2, runW env fuel c = some c2 ∧ InvW c2 ∧
        c2.state.max_iterations = c.state.max_iterations ∧ c2.node = .output := by
  intro fuel
  induction fuel with
  | zero => intro c _ hm; exact absurd hm (Nat.not_lt_zero _)
  | succ n ih =>
    intro c hInv hm
    rw [runW_succ]
    cases hs : stepW env c with
    | finished c2 =>
      obtain ⟨he, hno⟩ := stepW_finished_spec env c c2 hs
      subst he
      exact ⟨c2, rfl, hInv, rfl, hno⟩
    | crashed =>
      obtain ⟨_, hnil⟩ := stepW_crashed_spec env c hs
      exact absurd hnil (hInv.1 (stepW_crashed_spec env c hs).1)
    | next c2 =>
      obtain ⟨hinv2, hdec, hmax2⟩ := stepW_next_spec env c c2 hInv hs
      obtain ⟨c3, hrun, hinv3, hmax3, hout⟩ := ih c2 hinv2 (by omega)
      exact ⟨c3, hrun, hinv3, by rw [hmax3, hmax2], hout⟩

/-- Runs that return preserve the invariant and the iteration cap, for
any fuel. -/
theorem runW_inv (env : Env) :
    ∀ (fuel : Nat) (c c2 : Config), InvW c → runW env fuel c = some c2 →
      InvW c2 ∧ c2.state.max_iterations = c.state.max_iterations := by
  intro fuel
  induction fuel with
  | zero => intro c c2 _ h; cases h
  | succ n ih =>
    intro c c2 hInv h
    rw [runW_succ] at h
    cases hs : stepW env c with
    | finished c3 =>
      rw [hs] at h
      cases h
      obtain ⟨he, _⟩ := stepW_finished_spec env c _ hs
      subst he
      exact ⟨hInv, rfl⟩
    | crashed => rw [hs] at h; cases h
    | next c3 =>
      rw [hs] at h
      obtain ⟨hinv3, _, hmax3⟩ := stepW_next_spec env c c3 hInv hs
      obtain ⟨hi, hm⟩ := ih c3 c2 hinv3 h
      exact ⟨hi, hm.trans hmax3⟩

/-- Explicit form of a cot pass that received tool calls. -/
theorem cotNode_toolcalls_eq (s : ChatState) (c : Option String) (tcs : List ToolCall)
    (fr : String) (h : s.iteration < s.max_iterations) (hne : tcs ≠ []) :
    cotNode s (.success c tcs fr) =
      { s with messages := cotPrepMessages s ++ [assistantToolMsg (c.getD "") tcs],
               finish_reason := some fr,
               is_financial :=
                 if s.iteration == 0 then some (!(tcs.any (fun x => x.name == "invalid")))
                 else s.is_financial } := by
  unfold cotNode
  rw [if_neg (Nat.not_le.mpr h)]
  dsimp only
  rw [if_pos (show (tcs.isEmpty = false) by cases tcs with | nil => exact absurd rfl hne | cons a b => rfl)]

/-- Calls before the first invalid call (all parseable, none named
invalid) only append function-role entries; the loop then continues on
the remaining calls. -/
theorem processToolCalls_skipFront (pre : List ToolCall) :
    ∀ (s : ChatState) (rest : List ToolCall),
      (∀ tc ∈ pre, tc.name ≠ "invalid" ∧ ∃ kw, tc.args = .parsed kw) →
      ∃ extra, processToolCalls s (pre ++ rest) =
        processToolCalls { s with messages := s.messages ++ extra } rest := by
  induction pre with
  | nil =>
    intro s rest _
    refine ⟨[], ?_⟩
    rw [List.nil_append, List.append_nil]
  | cons tc pre ih =>
    intro s rest h
    obtain ⟨hname, kw, hkw⟩ := h tc (List.mem_cons_self tc pre)
    have hrest : ∀ x ∈ pre, x.name ≠ "invalid" ∧ ∃ kw2, x.args = .parsed kw2 :=
      fun x hx => h x (List.mem_cons_of_mem _ hx)
    rw [List.cons_append]
    by_cases hc : (FUNCTION_MAP_keys.contains tc.name) = false
    · obtain ⟨extra, hextra⟩ :=
        ih { s with messages := s.messages ++ [funcMsg tc.name tc.id (jsonError ("Invalid function " ++ tc.name))] } rest hrest
      refine ⟨[funcMsg tc.name tc.id (jsonError ("Invalid function " ++ tc.name))] ++ extra, ?_⟩
      conv_lhs => unfold processToolCalls
      rw [hkw]
      dsimp only
      rw [if_pos hc, hextra, ← List.append_assoc]
    · cases hr : invokeTool tc.name kw with
      | ok r =>
        obtain ⟨extra, hextra⟩ :=
          ih { s with messages := s.messages ++ [funcMsg tc.name tc.id (dumpResult r)] } rest hrest
        refine ⟨[funcMsg tc.name tc.id (dumpResult r)] ++ extra, ?_⟩
        conv_lhs => unfold processToolCalls
        rw [hkw]
        dsimp only
        rw [if_neg hc, hr]
        dsimp only
        rw [if_neg (fun hx => hname (beq_iff_eq.mp hx)), hextra, ← List.append_assoc]
      | error e =>
        obtain ⟨extra, hextra⟩ :=
          ih { s with messages := s.messages ++ [funcMsg tc.name tc.id (jsonError ("Error executing " ++ tc.name ++ ": " ++ e))] } rest hrest
        refine ⟨[funcMsg tc.name tc.id (jsonError ("Error executing " ++ tc.name ++ ": " ++ e))] ++ extra, ?_⟩
        conv_lhs => unfold processToolCalls
        rw [hkw]
        dsimp only
        rw [if_neg hc, hr]
        dsimp only
        rw [hextra, ← List.append_assoc]

/- Claim theorems. -/

/-- C9 counterexample: with exactly five prior requests in the free-tier
window (`rpm = 5`) the request count does not strictly exceed the
threshold, yet the check raises the rate-limit error instead of recording
the attempt and returning normally, so the claim's reading of `exceeds`
is refuted at this input. -/
theorem c9_counterexample :
    (pruneWindow 100 exEntriesAtLimit).length = 5 ∧
    ¬ (5 : Nat) > 5 ∧
    (check_rate_limit 100 exEntriesAtLimit "free-tier").2 = some .rateLimitExceeded := by
  refine ⟨by decide, by decide, by decide⟩

/-- C9 (amended): the check fails with the rate-limit error exactly when
the count of window entries reaches or exceeds (`>=`) the tier rpm
threshold (checked first); otherwise it fails with the token-limit error
exactly when the summed window token counts reach or exceed the tier tpm
threshold; otherwise it appends the `(now, 10)` record for the user and
returns no error. -/
theorem c9_amended (now : Nat) (entries : List (Nat × Nat)) (tier : String) :
    ((check_rate_limit now entries tier).2 = some .rateLimitExceeded ↔
      (tier_limits tier).1 ≤ (pruneWindow now entries).length) ∧
    ((check_rate_limit now entries tier).2 = some .tokenLimitExceeded ↔
      ((pruneWindow now entries).length < (tier_limits tier).1 ∧
        (tier_limits tier).2 ≤ ((pruneWindow now entries).map (fun e => e.2)).sum)) ∧
    ((pruneWindow now entries).length < (tier_limits tier).1 →
      ((pruneWindow now entries).map (fun e => e.2)).sum < (tier_limits tier).2 →
      check_rate_limit now entries tier = (pruneWindow now entries ++ [(now, 10)], none)) := by
  unfold check_rate_limit
  by_cases h1 : (pruneWindow now entries).length ≥ (tier_limits tier).1
  · rw [if_pos h1]
    refine ⟨iff_of_true rfl h1, ?_, ?_⟩
    · refine iff_of_false (by simp) ?_
      intro hx
      omega
    · intro ha _
      omega
  · rw [if_neg h1]
    by_cases h2 : ((pruneWindow now entries).map (fun e => e.2)).sum ≥ (tier_limits tier).2
    · rw [if_pos h2]
      refine ⟨iff_of_false (by simp) (by omega), iff_of_true rfl ⟨by omega, h2⟩, ?_⟩
      intro _ hb
      omega
    · rw [if_neg h2]
      refine ⟨iff_of_false (by simp) (by omega), iff_of_false (by simp) (by omega), ?_⟩
      intro _ _
      rfl

/-- C9 witness: a free-tier user with one recent request is recorded. -/
theorem c9_witness :
    check_rate_limit 100 [(50, 10)] "free-tier" = ([(50, 10), (100, 10)], none) :=
  (c9_amended 100 [(50, 10)] "free-tier").2.2 (by decide) (by decide)

/-- C5 counterexample: a state that hit a stop with one prior user
message routes to the summarizer although `userMessageCount mod K` is
nonzero for the local cadence constant K = 2 (and for the legacy cadence
10), so summarization does not run exactly on the cadence. -/
theorem c5_counterexample :
    routeAfterCot exStopState = "summarizer" ∧
    exStopState.user_message_count % SUMMARIZER_K ≠ 0 ∧
    exStopState.user_message_count % 10 ≠ 0 := by
  refine ⟨by decide, by decide, by decide⟩

/-- C5 (amended): summarization runs exactly when, after a reasoning
pass, the latest message carries no tool calls and the finish reason is
stop or the response is truthy — the cadence constant K is defined but
never consulted — and the summarizer never changes (hence never
decreases) the length of `messages`. -/
theorem c5_amended (s : ChatState) (r : SummLLMResult) :
    (routeAfterCot s = "summarizer" ↔
      (lastToolCallsNonempty s = false ∧
        (s.finish_reason = some "stop" ∨ strTruthy s.response = true))) ∧
    (summarizerNode s r).messages = s.messages ∧
    s.messages.length ≤ (summarizerNode s r).messages.length := by
  refine ⟨?_, (summarizerNode_fields s r).2.2.1, ?_⟩
  · unfold routeAfterCot
    by_cases h1 : lastToolCallsNonempty s = true
    · rw [if_pos h1]
      refine iff_of_false (by decide) ?_
      intro hx
      rw [h1] at hx
      cases hx.1
    · rw [if_neg h1]
      by_cases h2 : (s.finish_reason == some "stop" || strTruthy s.response) = true
      · rw [if_pos h2]
        refine iff_of_true rfl ⟨bool_eq_false_of_not_true h1, ?_⟩
        rcases bor_eq_true_elim h2 with hx | hx
        · exact Or.inl (beq_iff_eq.mp hx)
        · exact Or.inr hx
      · rw [if_neg h2]
        refine iff_of_false (by split_ifs <;> decide) ?_
        intro hx
        apply h2
        apply bor_eq_true_intro
        rcases hx.2 with hy | hy
        · exact Or.inl (beq_iff_eq.mpr hy)
        · exact Or.inr hy
  · rw [(summarizerNode_fields s r).2.2.1]

/-- C6 counterexample: when the summarization LLM call fails on a state
whose summary is absent (`None`), the step rewrites the summary to the
empty string, so the summary field is not left unchanged. -/
theorem c6_counterexample :
    (summarizerNode exNoSummaryState (.failure "connection reset")).summary ≠
      exNoSummaryState.summary := by
  decide

/-- C6 (amended): when the summarization LLM call fails, the step leaves
a previously present (non-`None`) summary unchanged — an absent summary
is normalized to the empty string — and leaves `response` and `messages`
intact, so the turn completes with its response. -/
theorem c6_amended (s : ChatState) (e : String) :
    (summarizerNode s (.failure e)).response = s.response ∧
    (summarizerNode s (.failure e)).messages = s.messages ∧
    (s.summary ≠ none → (summarizerNode s (.failure e)).summary = s.summary) := by
  refine ⟨(summarizerNode_fields s _).2.2.2.1, (summarizerNode_fields s _).2.2.1, ?_⟩
  intro hs
  unfold summarizerNode
  split
  · cases hsum : s.summary with
    | none => exact absurd hsum hs
    | some x =>
      rfl
  · rfl

/-- C6 witness: a failing summarizer call keeps a stored summary. -/
theorem c6_witness :
    (summarizerNode exSummaryState (.failure "connection reset")).summary =
      exSummaryState.summary :=
  (c6_amended exSummaryState "connection reset").2.2 (by decide)

/-- C8 counterexample: a reachable turn (iteration budget 1, the model
always answering with empty content and a non-stop finish reason) reaches
the terminal output node with `response` still empty, so a terminal route
is taken exactly without a non-empty response. -/
theorem c8_counterexample :
    (runW exEnvIncomplete 6 (initConfig exTurnStateMaxOne)).map
        (fun c => (c.node, c.state.response)) =
      some (Node.output, (none : Option String)) ∧
    strTruthy none = false := by
  exact ⟨rfl, rfl⟩

/-- C8 (amended): a non-empty response is sufficient for a terminal
route — after reasoning (when the latest message carries no tool calls)
it forces the summarization path, and after tool-execution it forces
output — but it is not necessary: the direct reasoning-to-output
exhaustion edge is taken only with an empty response, and after
tool-execution an `invalid`-named function entry forces output regardless
of the response. -/
theorem c8_amended (s : ChatState) :
    (lastToolCallsNonempty s = false → strTruthy s.response = true →
      routeAfterCot s = "summarizer") ∧
    (strTruthy s.response = true → routeAfterToolCall s = "output") ∧
    (routeAfterCot s = "output" → strTruthy s.response = false) ∧
    (hasInvalidFnEntry s = true → routeAfterToolCall s = "output") := by
  refine ⟨?_, ?_, ?_, ?_⟩
  · intro h1 h2
    exact routeAfterCot_summarizer_of s h1 (by rw [h2, Bool.or_true])
  · intro h
    exact routeAfterToolCall_output_of s (by rw [h, Bool.true_or])
  · intro h
    exact (Bool.or_eq_false_iff.mp (routeAfterCot_eq_output_imp s h).2.1).2
  · intro h
    exact routeAfterToolCall_output_of s (by rw [h, Bool.or_true])

/-- C8 witness: a stopped state with a non-empty response routes to the
summarizer. -/
theorem c8_witness : routeAfterCot exStopState = "summarizer" :=
  (c8_amended exStopState).1 (by decide) (by decide)

/-- C2: after a reasoning step (transcript nonempty there), the router
picks tool_execution iff the latest message carries tool calls; otherwise
summarization iff the finish reason is stop or the response is truthy;
otherwise it loops to reasoning iff iterations remain, and otherwise
takes the terminal output edge. After a tool-execution step it picks
output iff the response is truthy or some function-role entry carries the
sentinel name invalid, and loops to reasoning otherwise. -/
theorem c2_router_spec (s : ChatState) (_h : s.messages ≠ []) :
    (routeAfterCot s = "tool_call" ↔ lastToolCallsNonempty s = true) ∧
    (lastToolCallsNonempty s = false →
      (routeAfterCot s = "summarizer" ↔
        (s.finish_reason = some "stop" ∨ strTruthy s.response = true))) ∧
    (lastToolCallsNonempty s = false →
      ¬ (s.finish_reason = some "stop" ∨ strTruthy s.response = true) →
      ((routeAfterCot s = "cot" ↔ s.iteration < s.max_iterations) ∧
       (routeAfterCot s = "output" ↔ ¬ s.iteration < s.max_iterations))) ∧
    (routeAfterToolCall s = "output" ↔
      (strTruthy s.response = true ∨ hasInvalidFnEntry s = true)) ∧
    (routeAfterToolCall s = "cot" ↔
      ¬ (strTruthy s.response = true ∨ hasInvalidFnEntry s = true)) := by
  refine ⟨routeAfterCot_toolcall_iff s, ?_, ?_, ?_, ?_⟩
  · intro hlast
    unfold routeAfterCot
    rw [if_neg (by rw [hlast]; exact Bool.false_ne_true)]
    by_cases h2 : (s.finish_reason == some "stop" || strTruthy s.response) = true
    · rw [if_pos h2]
      refine iff_of_true rfl ?_
      rcases bor_eq_true_elim h2 with hx | hx
      · exact Or.inl (beq_iff_eq.mp hx)
      · exact Or.inr hx
    · rw [if_neg h2]
      refine iff_of_false (by split_ifs <;> decide) ?_
      intro hx
      apply h2
      apply bor_eq_true_intro
      rcases hx with hy | hy
      · exact Or.inl (beq_iff_eq.mpr hy)
      · exact Or.inr hy
  · intro hlast hns
    unfold routeAfterCot
    rw [if_neg (by rw [hlast]; exact Bool.false_ne_true)]
    rw [if_neg (show ¬ ((s.finish_reason == some "stop" || strTruthy s.response) = true) by
      intro hx
      apply hns
      rcases bor_eq_true_elim hx with hy | hy
      · exact Or.inl (beq_iff_eq.mp hy)
      · exact Or.inr hy)]
    by_cases h3 : s.iteration < s.max_iterations
    · rw [if_pos h3]
      exact ⟨iff_of_true rfl h3, iff_of_false (by decide) (fun hx => hx h3)⟩
    · rw [if_neg h3]
      exact ⟨iff_of_false (by decide) h3, iff_of_true rfl h3⟩
  · unfold routeAfterToolCall
    by_cases h4 : (strTruthy s.response || hasInvalidFnEntry s) = true
    · rw [if_pos h4]
      exact iff_of_true rfl (bor_eq_true_elim h4)
    · rw [if_neg h4]
      exact iff_of_false (by decide) (fun hx => h4 (bor_eq_true_intro hx))
  · unfold routeAfterToolCall
    by_cases h4 : (strTruthy s.response || hasInvalidFnEntry s) = true
    · rw [if_pos h4]
      exact iff_of_false (by decide) (fun hx => hx (bor_eq_true_elim h4))
    · rw [if_neg h4]
      exact iff_of_true rfl (fun hx => h4 (bor_eq_true_intro hx))

/-- C2 witness: a state whose trailing message carries tool calls routes
to tool_call. -/
theorem c2_witness : routeAfterCot exBatchState = "tool_call" :=
  ((c2_router_spec exBatchState (by decide)).1).mpr (by decide)

/-- The initial configuration satisfies the driver invariant as soon as
the iteration counter starts within the cap. -/
theorem InvW_initConfig (s0 : ChatState) (h : s0.iteration ≤ s0.max_iterations) :
    InvW (initConfig s0) := by
  refine ⟨?_, ?_, ?_, ?_⟩
  · intro hx; exact Node.noConfusion hx
  · intro _; exact Nat.zero_le _
  · exact Nat.zero_le _
  · exact h

/-- C1: over every completed run starting at iteration 0, the final
iteration is at most maxIterations; and whenever iteration has reached
maxIterations at entry, the reasoning step is the fixed terminal-response
update — independent of the LLM oracle, so no LLM call influences it —
and the tool-execution step is the fixed terminal-response update,
executing no tool. -/
theorem c1_iteration_bound :
    (∀ (env : Env) (s0 : ChatState) (fuel : Nat) (c2 : Config),
      s0.iteration = 0 → runW env fuel (initConfig s0) = some c2 →
      c2.state.iteration ≤ s0.max_iterations) ∧
    (∀ (s : ChatState) (r : LLMResult), s.iteration ≥ s.max_iterations →
      cotNode s r =
        { s with response := some "Unable to process query after maximum reasoning attempts." }) ∧
    (∀ (s : ChatState), s.iteration ≥ s.max_iterations →
      toolCallNode s =
        some { s with response := some "Unable to process query after maximum function calls." }) := by
  refine ⟨?_, ?_, ?_⟩
  · intro env s0 fuel c2 h0 hrun
    have hInv0 : InvW (initConfig s0) := InvW_initConfig s0 (by rw [h0]; exact Nat.zero_le _)
    obtain ⟨hinv2, hmax2⟩ := runW_inv env fuel (initConfig s0) c2 hInv0 hrun
    have hle := hinv2.2.2.2
    dsimp only [initConfig] at hmax2
    omega
  · intro s r h
    unfold cotNode
    rw [if_pos h]
  · intro s h
    unfold toolCallNode
    rw [if_pos h]

/-- C1 witness: an invalid-query run ends within the cap, and a state at
the cap gets the two fixed exhaustion responses. -/
theorem c1_witness :
    exTurnState.iteration = 0 ∧
    exInvalidFinalConfig.state.iteration ≤ exTurnState.max_iterations ∧
    cotNode { exTurnState with iteration := 9 } (.failure "boom") =
      { { exTurnState with iteration := 9 } with
          response := some "Unable to process query after maximum reasoning attempts." } ∧
    toolCallNode { exTurnState with iteration := 9 } =
      some { { exTurnState with iteration := 9 } with
          response := some "Unable to process query after maximum function calls." } :=
  ⟨rfl,
   c1_iteration_bound.1 exEnvInvalidOk exTurnState 8 exInvalidFinalConfig rfl (by decide),
   c1_iteration_bound.2.1 _ (.failure "boom") (by decide),
   c1_iteration_bound.2.2 _ (by decide)⟩

/-- C10: for every environment and every initial state starting at
iteration 0, the workflow terminates — with fuel 4·maxIterations + 8 the
driver reaches the terminal output node — and the number of completed
reasoning passes is at most maxIterations + 1, so the
reasoning/tool-execution loop runs at most maxIterations + 1 cycles. -/
theorem c10_termination (env : Env) (s0 : ChatState) (h0 : s0.iteration = 0) :
    ∃ c2, runW env (4 * s0.max_iterations + 8) (initConfig s0) = some c2 ∧
      c2.node = .output ∧ c2.cotPasses ≤ s0.max_iterations + 1 := by
  have hInv0 : InvW (initConfig s0) := InvW_initConfig s0 (by rw [h0]; exact Nat.zero_le _)
  have hm : measureW (initConfig s0) < 4 * s0.max_iterations + 8 := by
    dsimp only [measureW, initConfig, nodeWeight]
    omega
  obtain ⟨c2, hrun, hinv2, hmax2, hout⟩ := runW_some_spec env _ _ hInv0 hm
  refine ⟨c2, hrun, hout, ?_⟩
  have h1 := hinv2.2.2.1
  have h2 := hinv2.2.2.2
  dsimp only [initConfig] at hmax2
  omega

/-- C10 witness: the incomplete-answer environment terminates within the
stated fuel and pass bound on a fresh turn. -/
theorem c10_witness :
    ∃ c2, runW exEnvIncomplete (4 * exTurnState.max_iterations + 8) (initConfig exTurnState) =
        some c2 ∧ c2.node = .output ∧ c2.cotPasses ≤ exTurnState.max_iterations + 1 :=
  c10_termination exEnvIncomplete exTurnState rfl

theorem countUserRole_cons_false (m : Msg) (l : List Msg)
    (h : (m.role == "user") = false) : countUserRole (m :: l) = countUserRole l := by
  simp [countUserRole, List.filter_cons, h]

theorem countUserRole_append_user (l : List Msg) (q : String) :
    countUserRole (l ++ [userMsg q]) = countUserRole l + 1 := by
  simp [countUserRole, List.filter_append, userMsg, List.filter_cons]

theorem countUserRole_pyInsert1 (x : Msg) (l : List Msg) :
    countUserRole (pyInsert1 x l) = countUserRole (x :: l) := by
  cases l with
  | nil => rfl
  | cons a t =>
    simp only [pyInsert1, countUserRole, List.filter_cons]
    split_ifs <;> simp +arith

/-- C4 counterexample: with a stored summary fed back on the next turn,
no entry of the reasoning prompt is the summary verbatim: the only
system-role summary entry carries the `Conversation summary: ` prefix, so
the summary does not appear verbatim as a system-role entry. -/
theorem c4_counterexample :
    ((cotPrompt exSummaryState).all
      (fun m => !(m.role == "system" && m.content == "User asked about Apple earnings."))) = true ∧
    (cotPrompt exSummaryState)[1]? =
      some { role := "system",
             content := "Conversation summary: User asked about Apple earnings." } := by
  exact ⟨by decide, by decide⟩

/-- C4 (amended): on the first reasoning iteration and only then, the
reasoning prompt gains the user query as its trailing user-role entry
(and exactly one user-role entry is added); on later iterations no
user-role entry is added; whenever the summary is truthy it is spliced in
at index 1, immediately after the leading entry, inside a system-role
entry of the form `Conversation summary: <summary>` — the fed-back
summary appears verbatim only as the suffix of that entry, not as the
entry itself. -/
theorem c4_amended (s : ChatState) (m0 : Msg) (rest : List Msg)
    (hmsg : s.messages = m0 :: rest) :
    (s.iteration = 0 →
      (cotPrompt s).getLast? = some (userMsg s.user_query) ∧
      countUserRole (cotPrompt s) = countUserRole s.messages + 1) ∧
    (s.iteration ≠ 0 → countUserRole (cotPrompt s) = countUserRole s.messages) ∧
    (strTruthy s.summary = true →
      ((cotPrompt s)[0]? = some m0 ∧
       (cotPrompt s)[1]? = some (summaryMsg s) ∧
       ∀ prev, s.summary = some prev →
         (cotPrompt s)[1]? =
           some { role := "system", content := "Conversation summary: " ++ prev })) := by
  refine ⟨?_, ?_, ?_⟩
  · intro h0
    have hbeq : (s.iteration == 0) = true := beq_iff_eq.mpr h0
    unfold cotPrompt
    dsimp only
    by_cases hsum : strTruthy s.summary = true
    · rw [if_pos hsum, if_pos hbeq]
      constructor
      · rw [hmsg, List.cons_append]
        dsimp only [pyInsert1]
        rw [show m0 :: summaryMsg s :: (rest ++ [userMsg s.user_query]) =
              (m0 :: summaryMsg s :: rest) ++ [userMsg s.user_query] by simp]
        exact getLast?_append_singleton _ _
      · rw [countUserRole_pyInsert1, countUserRole_cons_false _ _ (by rfl)]
        exact countUserRole_append_user _ _
    · rw [if_neg hsum, if_pos hbeq]
      exact ⟨getLast?_append_singleton _ _, countUserRole_append_user _ _⟩
  · intro h0
    have hbeq : (s.iteration == 0) = false := by
      cases hb : (s.iteration == 0)
      · rfl
      · exact absurd (beq_iff_eq.mp hb) h0
    have hnot : ¬ ((s.iteration == 0) = true) := by
      rw [hbeq]
      exact Bool.false_ne_true
    unfold cotPrompt
    dsimp only
    by_cases hsum : strTruthy s.summary = true
    · rw [if_pos hsum, if_neg hnot, countUserRole_pyInsert1,
          countUserRole_cons_false _ _ (by rfl)]
    · rw [if_neg hsum, if_neg hnot]
  · intro hsum
    unfold cotPrompt
    dsimp only
    rw [if_pos hsum]
    by_cases h0 : (s.iteration == 0) = true
    · rw [if_pos h0, hmsg, List.cons_append]
      dsimp only [pyInsert1]
      refine ⟨?_, ?_, ?_⟩
      · simp only [List.getElem?_cons_zero]
      · simp only [List.getElem?_cons_succ, List.getElem?_cons_zero]
      · intro prev hprev
        simp only [List.getElem?_cons_succ, List.getElem?_cons_zero]
        unfold summaryMsg
        rw [hprev]
        rfl
    · rw [if_neg h0, hmsg]
      dsimp only [pyInsert1]
      refine ⟨?_, ?_, ?_⟩
      · simp only [List.getElem?_cons_zero]
      · simp only [List.getElem?_cons_succ, List.getElem?_cons_zero]
      · intro prev hprev
        simp only [List.getElem?_cons_succ, List.getElem?_cons_zero]
        unfold summaryMsg
        rw [hprev]
        rfl

/-- C4 witness: the fed-back summary of the example turn sits at prompt
index 1 inside the prefixed system entry. -/
theorem c4_witness :
    (cotPrompt exSummaryState)[1]? = some (summaryMsg exSummaryState) :=
  ((c4_amended exSummaryState systemPromptMsg [] rfl).2.2 (by decide)).2.1

/-- C7 counterexample: a batch whose first call has an unknown tool name
and unparseable JSON arguments sets `response` and aborts: no
function-role error entry is appended for that call and the well-formed
sibling call never executes. -/
theorem c7_counterexample :
    toolCallNode exBatchState =
      some { exBatchState with
               response := some "Error processing tool calls: Expecting value: line 1 column 1 (char 0)" } ∧
    (toolCallNode exBatchState).map (fun r => r.messages.length) =
      some exBatchState.messages.length := by
  exact ⟨by decide, by decide⟩

/-- C7 (amended): a call whose arguments parse as JSON and whose name is
absent from the registry appends exactly one function-role error entry
for that call and the loop continues on the remaining calls from that
state (so the response is untouched by it); moreover any batch of
parseable non-invalid calls completes: the response is left unchanged and
the iteration counter is incremented once. Only a call whose arguments
fail JSON parsing aborts the batch. -/
theorem c7_amended :
    (∀ (s : ChatState) (id fname : String) (kwargs : List (String × String))
        (rest : List ToolCall),
      FUNCTION_MAP_keys.contains fname = false →
      processToolCalls s ({ id := id, name := fname, args := .parsed kwargs } :: rest) =
        processToolCalls
          { s with messages :=
              s.messages ++ [funcMsg fname id (jsonError ("Invalid function " ++ fname))] }
          rest) ∧
    (∀ (s : ChatState) (tcs : List ToolCall),
      (∀ tc ∈ tcs, tc.name ≠ "invalid" ∧ ∃ kw, tc.args = .parsed kw) →
      (processToolCalls s tcs).response = s.response ∧
      (processToolCalls s tcs).iteration = s.iteration + 1) := by
  constructor
  · intro s id fname kwargs rest hf
    conv_lhs => unfold processToolCalls
    dsimp only
    rw [if_pos hf]
  · intro s tcs h
    induction tcs generalizing s with
    | nil => exact ⟨rfl, rfl⟩
    | cons tc rest ih =>
      obtain ⟨hname, kw, hkw⟩ := h tc (List.mem_cons_self tc rest)
      have hrest : ∀ x ∈ rest, x.name ≠ "invalid" ∧ ∃ kw2, x.args = .parsed kw2 :=
        fun x hx => h x (List.mem_cons_of_mem _ hx)
      conv_lhs => unfold processToolCalls
      conv_rhs => unfold processToolCalls
      rw [hkw]
      dsimp only
      by_cases hc : (FUNCTION_MAP_keys.contains tc.name) = false
      · rw [if_pos hc]
        exact ih _ hrest
      · rw [if_neg hc]
        cases hr : invokeTool tc.name kw with
        | ok r =>
          dsimp only
          rw [if_neg (fun hx => hname (beq_iff_eq.mp hx))]
          exact ih _ hrest
        | error e =>
          dsimp only
          exact ih _ hrest

/-- C7 witness: an unknown-name call with parseable arguments appends its
error entry and hands the loop the remaining (empty) batch. -/
theorem c7_witness :
    processToolCalls exBatchState
        [{ id := "call_9", name := "get_stock_price", args := .parsed [] }] =
      processToolCalls
        { exBatchState with messages :=
            exBatchState.messages ++
              [funcMsg "get_stock_price" "call_9" (jsonError ("Invalid function " ++ "get_stock_price"))] }
        [] :=
  c7_amended.1 exBatchState "call_9" "get_stock_price" [] [] (by decide)

/-- C3 counterexample: a turn whose first reasoning pass selects the
invalid tool, but with arguments that fail JSON parsing, ends with
isFinancial = false yet a final response equal to the outer-except text
rather than the rejection message, refuting the claim as universally
stated. -/
theorem c3_counterexample :
    exEnvInvalidBad.llm 0 = .success none [exInvCallBad] "tool_calls" ∧
    exInvCallBad.name = "invalid" ∧
    (runW exEnvInvalidBad 8 (initConfig exTurnState)).map
        (fun c => (c.state.is_financial, c.state.response)) =
      some (some false,
        some "Error processing tool calls: Expecting value: line 1 column 1 (char 0)") ∧
    some "Error processing tool calls: Expecting value: line 1 column 1 (char 0)" ≠
      some invalidMessage := by
  exact ⟨rfl, rfl, by decide, by decide⟩

/-- C3 (amended): for every turn whose first reasoning pass selects the
designated invalid tool through a batch whose calls ahead of it are
parseable and not named invalid, and whose invalid call carries a
well-formed empty argument object, the run sets isFinancial to false,
ends with the final response equal to the invalid tool's rejection
payload, and performs exactly one tool-execution pass. -/
theorem c3_amended (env : Env) (s0 : ChatState) (content : Option String)
    (pre post : List ToolCall) (inv : ToolCall) (fr : String)
    (h0 : s0.iteration = 0) (hmax : 0 < s0.max_iterations)
    (hllm : env.llm 0 = .success content (pre ++ inv :: post) fr)
    (hinvname : inv.name = "invalid") (hinvargs : inv.args = .parsed [])
    (hpre : ∀ tc ∈ pre, tc.name ≠ "invalid" ∧ ∃ kw, tc.args = .parsed kw) :
    ∃ c2, runW env 6 (initConfig s0) = some c2 ∧
      c2.state.is_financial = some false ∧
      c2.state.response = some invalidMessage ∧
      c2.toolPasses = 1 ∧ c2.node = .output := by
  have hlt : (inputNode s0).iteration < (inputNode s0).max_iterations := by
    have h1 : (inputNode s0).iteration = s0.iteration := rfl
    have h2 : (inputNode s0).max_iterations = s0.max_iterations := rfl
    omega
  have hne : (pre ++ inv :: post) ≠ [] := by
    intro hx
    obtain ⟨-, h2⟩ := List.append_eq_nil.mp hx
    exact List.noConfusion h2
  have hcot :
      cotNode (inputNode s0) (env.llm 0) =
        { inputNode s0 with
            messages := cotPrepMessages (inputNode s0) ++
              [assistantToolMsg (content.getD "") (pre ++ inv :: post)],
            finish_reason := some fr,
            is_financial :=
              if (inputNode s0).iteration == 0 then
                some (!((pre ++ inv :: post).any (fun x => x.name == "invalid")))
              else (inputNode s0).is_financial } := by
    rw [hllm]
    exact cotNode_toolcalls_eq _ _ _ _ hlt hne
  have hany : ((pre ++ inv :: post).any (fun x => x.name == "invalid")) = true := by
    simp only [List.any_eq_true]
    refine ⟨inv, ?_, ?_⟩
    · exact List.mem_append_right _ (List.mem_cons_self _ _)
    · rw [hinvname]
      decide
  have hbeq0 : ((inputNode s0).iteration == 0) = true := beq_iff_eq.mpr h0
  set sC := cotNode (inputNode s0) (env.llm 0) with hsC
  have hCiter : sC.iteration = 0 := by
    rw [hcot]
    exact h0
  have hCmax : sC.max_iterations = s0.max_iterations := by
    rw [hcot]
    rfl
  have hCfin : sC.is_financial = some false := by
    rw [hcot]
    dsimp only
    rw [if_pos hbeq0, hany]
    rfl
  have hCmsgs : sC.messages = cotPrepMessages (inputNode s0) ++
      [assistantToolMsg (content.getD "") (pre ++ inv :: post)] := by
    rw [hcot]
  have hCroute : routeAfterCot sC = "tool_call" :=
    (routeAfterCot_toolcall_iff _).mpr
      (lastToolCallsNonempty_append _ _ _ _ hne hCmsgs)
  have hCnotmax : ¬ (sC.iteration ≥ sC.max_iterations) := by
    rw [hCiter, hCmax]
    omega
  obtain ⟨extra, hextra⟩ := processToolCalls_skipFront pre sC (inv :: post) hpre
  have hinvgen : ∀ (st : ChatState), processToolCalls st (inv :: post) =
      { st with response := some invalidMessage,
                messages := st.messages ++ [funcMsg "invalid" inv.id (jsonError invalidMessage)] } := by
    intro st
    conv_lhs => unfold processToolCalls
    rw [hinvargs]
    dsimp only
    rw [hinvname]
    rw [if_neg (by decide)]
    rw [show invokeTool "invalid" [] = Except.ok ToolResult.invalidRes from rfl]
    dsimp only
    rw [if_pos (by decide)]
    rfl
  have hempty : (pre ++ inv :: post).isEmpty = false := by
    cases hp : pre ++ inv :: post with
    | nil => exact absurd hp hne
    | cons a b => rfl
  set sT : ChatState :=
    { sC with
        response := some invalidMessage,
        messages := (sC.messages ++ extra) ++ [funcMsg "invalid" inv.id (jsonError invalidMessage)] }
    with hsT
  have htool : toolCallNode sC = some sT := by
    unfold toolCallNode
    rw [if_neg hCnotmax]
    rw [show sC.messages.getLast? =
          some (assistantToolMsg (content.getD "") (pre ++ inv :: post)) by
        rw [hCmsgs]; exact getLast?_append_singleton _ _]
    dsimp only
    rw [if_neg (by rw [show (assistantToolMsg (content.getD "") (pre ++ inv :: post)).tool_calls = pre ++ inv :: post from rfl, hempty]; exact Bool.false_ne_true)]
    rw [show (assistantToolMsg (content.getD "") (pre ++ inv :: post)).tool_calls = pre ++ inv :: post from rfl]
    rw [hextra, hinvgen]
  have hTresp : strTruthy sT.response = true := by
    rfl
  have hTroute : routeAfterToolCall sT = "output" :=
    routeAfterToolCall_output_of _ (by rw [hTresp]; exact Bool.true_or _)
  refine ⟨{ node := .output, state := sT, llmCalls := 1, cotPasses := 1, toolPasses := 1 }, ?_, ?_, ?_, rfl, rfl⟩
  · rw [runW_succ]
    rw [show stepW env (initConfig s0) =
          .next { node := .cot, state := inputNode s0, llmCalls := 0, cotPasses := 0, toolPasses := 0 } from rfl]
    dsimp only
    rw [runW_succ]
    rw [show stepW env { node := .cot, state := inputNode s0, llmCalls := 0, cotPasses := 0, toolPasses := 0 } =
          .next { node := nodeOfRoute (routeAfterCot sC), state := sC,
                  llmCalls := 1, cotPasses := 1, toolPasses := 0 } from rfl]
    rw [hCroute, nodeOfRoute_toolcall]
    dsimp only
    rw [runW_succ]
    have hstep3 : stepW env { node := .toolCall, state := sC, llmCalls := 1, cotPasses := 1, toolPasses := 0 } =
        .next { node := nodeOfRoute (routeAfterToolCall sT), state := sT,
                llmCalls := 1, cotPasses := 1, toolPasses := 1 } := by
      dsimp only [stepW]
      rw [htool]
    rw [hstep3, hTroute, nodeOfRoute_output]
    dsimp only
    rw [runW_succ]
    rw [show stepW env { node := .output, state := sT, llmCalls := 1, cotPasses := 1, toolPasses := 1 } =
          .finished { node := .output, state := sT, llmCalls := 1, cotPasses := 1, toolPasses := 1 } from rfl]
  · exact hCfin
  · rfl

/-- C3 witness: the example invalid-query turn ends with the rejection
message, isFinancial false and a single tool pass. -/
theorem c3_witness :
    ∃ c2, runW exEnvInvalidOk 6 (initConfig exTurnState) = some c2 ∧
      c2.state.is_financial = some false ∧
      c2.state.response = some invalidMessage ∧
      c2.toolPasses = 1 ∧ c2.node = .output :=
  c3_amended exEnvInvalidOk exTurnState none [] [] exInvCallOk "tool_calls" rfl
    (by decide) rfl rfl rfl (fun tc h => absurd h (List.not_mem_nil tc))

end MarketMate
